import Mathlib

/-!
Verification development for the `CondorAgent.post_submit_cleanup` module
(`LocalSubmitCleaner`).  The Python source is shallowly embedded: the
external collaborators (`os.stat`, `pickle.load`, `util.runCommand2`,
`shutil.rmtree`, `os.remove`) are oracles supplied as inputs, and the
observable behaviour (removals performed, log events emitted) is computed
as a pure value.
-/

namespace CondorAgent

/-- Python 2 `\s` character class for byte strings: space, tab, newline,
carriage return, vertical tab, form feed. -/
def isWs (c : Char) : Bool :=
  c = ' ' || c = '\t' || c = '\n' || c = '\r' || c = '\x0b' || c = '\x0c'

/-- Length of the maximal whitespace run at the head of the list (what the
greedy `\s*` consumes before backtracking). -/
def wsRun : List Char → Nat
  | [] => 0
  | c :: cs => if isWs c then wsRun cs + 1 else 0

/-- Backtracking search for `\s* id`: the greedy engine first lets `\s*`
consume `k` characters for the largest `k` it can, and backtracks downward
until `id` matches at the position after the skip.  Returns the chosen
skip length. -/
def backScan (id s : List Char) : Nat → Option Nat
  | 0 => if id.isPrefixOf s then some 0 else none
  | k + 1 =>
    if id.isPrefixOf (s.drop (k + 1)) then some (k + 1) else backScan id s k

/-- Length of a match of the pattern `\s* id \s*` anchored at the head of
`s`, if any: leading `\s*` (with backtracking), the literal `id`, then a
greedy trailing `\s*`. -/
def matchLen (id s : List Char) : Option Nat :=
  match backScan id s (wsRun s) with
  | some k => some (k + id.length + wsRun (s.drop (k + id.length)))
  | none => none

/-- Number of matches `re.findall(r"^\s*id\s*", s, re.M)` finds: scan left
to right; `^` succeeds only at the start of the string or right after a
newline (tracked by `atLS`); after a match the scan resumes at the match
end (non-overlapping); an empty match advances the position by one.  The
first argument is recursion fuel; every step consumes at least one
character, so `s.length + 1` fuel always suffices (`scanCount_fuel`). -/
def scanCountF (id : List Char) : Nat → List Char → Bool → Nat
  | 0, _, _ => 0
  | _ + 1, [], atLS => if atLS && (matchLen id []).isSome then 1 else 0
  | f + 1, c :: rest, atLS =>
    if atLS then
      match matchLen id (c :: rest) with
      | some n =>
        if n = 0 then 1 + scanCountF id f rest (c == '\n')
        else
          1 + scanCountF id f (rest.drop (n - 1))
                (((c :: rest).take n).getLast? == some '\n')
      | none => scanCountF id f rest (c == '\n')
    else
      scanCountF id f rest (c == '\n')

/-- The findall scan started with sufficient fuel. -/
def scanCount (id s : List Char) (atLS : Bool) : Nat :=
  scanCountF id (s.length + 1) s atLS

/-- The scan result does not depend on the fuel once the fuel exceeds the
number of remaining characters, so `scanCount`'s fuel choice is harmless. -/
theorem scanCount_fuel (id : List Char) :
    ∀ (f g : Nat) (s : List Char) (atLS : Bool), s.length < f →
      s.length < g → scanCountF id f s atLS = scanCountF id g s atLS := by
  intro f
  induction f with
  | zero => intro g s atLS hf; omega
  | succ f ih =>
    intro g s atLS hf hg
    match g with
    | 0 => omega
    | g + 1 =>
      match s with
      | [] => rfl
      | c :: rest =>
        simp only [scanCountF]
        have hr : rest.length < f := by simp at hf; omega
        have hr' : rest.length < g := by simp at hg; omega
        by_cases hls : atLS
        · simp only [hls]
          cases hm : matchLen id (c :: rest) with
          | none => simp [ih g rest _ hr hr']
          | some n =>
            by_cases hn : n = 0
            · simp [hn, ih g rest _ hr hr']
            · have hd : (rest.drop (n - 1)).length < f := by
                simp [List.length_drop]; omega
              have hd' : (rest.drop (n - 1)).length < g := by
                simp [List.length_drop]; omega
              simp [hn, ih g (rest.drop (n - 1)) _ hd hd']
        · simp [hls, ih g rest _ hr hr']

/-- `len(re.findall(re.compile(r"^\s*%s\s*" % id, re.M), s))`. -/
def reFindAllCount (id s : String) : Nat :=
  scanCount id.data s.data true

/-- `LocalSubmitCleaner._condorJobsInQueue`, interpretation of the result
of the external `condor_q` run (exit code, stdout, stderr).  `jobCount`
starts as `None`; a non-empty stderr leaves it `None` (only an error is
logged); otherwise a zero exit code sets it to the findall count of lines
anchored on the cluster id; a non-zero exit code leaves it `None`. -/
def condorJobsInQueue (clusterid : String) (rc : Int)
    (stdout stderr : String) : Option Nat :=
  if stderr.length > 0 then none
  else if rc = 0 then some (reFindAllCount clusterid stdout)
  else none

/-- Severity levels of the logging sink. -/
inductive LogLevel
  | info
  | debug
  | error
deriving DecidableEq, Repr

/-- The log statements of the module, one constructor per `logging.*` call
site, carrying the data interpolated into the message. -/
inductive LogEvent
  | notOldEnough (cfile : String) (mtime : Int)
  | checkingCluster (cid queue : String)
  | probeRunning (cid : String)
  | probeStderr (stderr : String)
  | foundZeroCleanup (tmpdir : String)
  | unableRemovePath (tmpdir err : String)
  | removedPath (tmpdir : String)
  | unableRemoveFile (cfile err : String)
  | removedFile (cfile : String)
  | dryRunPath (tmpdir : String)
  | dryRunFile (cfile : String)
  | jobsStillInQueue (n : Nat)
  | condorQFailed
  | caughtUnhandled (msg : String)
  | sleeping (secs : Nat)
  | noSubmitDir
deriving DecidableEq, Repr

/-- Level each call site logs at in the source. -/
def LogEvent.level : LogEvent → LogLevel
  | .notOldEnough .. => .info
  | .checkingCluster .. => .info
  | .probeRunning .. => .info
  | .probeStderr .. => .error
  | .foundZeroCleanup .. => .info
  | .unableRemovePath .. => .error
  | .removedPath .. => .info
  | .unableRemoveFile .. => .error
  | .removedFile .. => .info
  | .dryRunPath .. => .debug
  | .dryRunFile .. => .debug
  | .jobsStillInQueue .. => .info
  | .condorQFailed => .error
  | .caughtUnhandled .. => .error
  | .sleeping .. => .info
  | .noSubmitDir => .error

/-- The pickled cluster record: a dictionary read with `cdata.get(...)`,
so every field may be absent (`None`). -/
structure ClusterData where
  clusterid : Option String
  queue : Option String
  tmpdir : Option String
deriving DecidableEq, Repr

/-- Oracle for the effectful collaborators touched while processing one
record file: `os.stat` (mtime or exception), `open`+`pickle.load`
(record or exception), `util.runCommand2` (exit code, stdout, stderr),
`shutil.rmtree` and `os.remove` (success or the exception they raise). -/
structure FSOracle where
  statMtime : Except String Int
  load : Except String ClusterData
  probeRC : Int
  probeOut : String
  probeErr : String
  rmtreeResult : Except String Unit
  removeResult : Except String Unit
deriving Repr

/-- Observable outcome of processing one record: which of the two
filesystem removals actually happened, and the log events emitted. -/
structure Effects where
  workDirRemoved : Bool
  recordFileRemoved : Bool
  logs : List LogEvent
deriving DecidableEq, Repr

/-- Log events emitted inside `_condorJobsInQueue`: the command is always
logged, and a non-empty stderr is logged as an error. -/
def probeLogs (cid stderr : String) : List LogEvent :=
  [.probeRunning cid] ++ (if stderr.length > 0 then [.probeStderr stderr] else [])

/-- `LocalSubmitCleaner._safeRemoveClusterFiles`.  Exceptions escaping the
function (from `os.stat` or from `open`/`pickle.load`) are `.error`;
exceptions of `shutil.rmtree` and `os.remove` are caught inside.  Python
formats a missing `clusterid` as the string `"None"` into the probe
pattern (`"%s" % None`), and a missing `tmpdir` likewise into the log
messages.  `jobsInQueue == 0` selects removal; `jobsInQueue > 0` is false
for `None` in Python 2, so `None` falls to the final `else`. -/
def safeRemoveClusterFiles (dryrun : Bool) (now : Int) (cfile : String)
    (o : FSOracle) : Except String Effects :=
  match o.statMtime with
  | .error e => .error e
  | .ok mtime =>
    if now - mtime < 300 then
      .ok ⟨false, false, [.notOldEnough cfile mtime]⟩
    else
      match o.load with
      | .error e => .error e
      | .ok cdata =>
        let cid := cdata.clusterid.getD "None"
        let tdir := cdata.tmpdir.getD "None"
        let logs0 :=
          [LogEvent.checkingCluster (cdata.clusterid.getD "Unknown")
            (cdata.queue.getD "localhost")] ++ probeLogs cid o.probeErr
        match condorJobsInQueue cid o.probeRC o.probeOut o.probeErr with
        | some 0 =>
          let logs1 := logs0 ++ [.foundZeroCleanup tdir]
          if !dryrun then
            match o.rmtreeResult with
            | .error e =>
              .ok ⟨false, false, logs1 ++ [.unableRemovePath tdir e]⟩
            | .ok _ =>
              match o.removeResult with
              | .error e =>
                .ok ⟨true, false,
                  logs1 ++ [.removedPath tdir, .unableRemoveFile cfile e]⟩
              | .ok _ =>
                .ok ⟨true, true,
                  logs1 ++ [.removedPath tdir, .removedFile cfile]⟩
          else
            .ok ⟨false, false, logs1 ++ [.dryRunPath tdir, .dryRunFile cfile]⟩
        | some (n + 1) =>
          .ok ⟨false, false, logs0 ++ [.jobsStillInQueue (n + 1)]⟩
        | none =>
          .ok ⟨false, false, logs0 ++ [.condorQFailed]⟩

/-- Outcome of one record in `run`'s loop body: the blanket
`try/except` turns an escaping exception into an error log. -/
def processRecord (dryrun : Bool) (now : Int) (rec : String × FSOracle) :
    Effects :=
  match safeRemoveClusterFiles dryrun now rec.1 rec.2 with
  | .ok eff => eff
  | .error e => ⟨false, false, [.caughtUnhandled e]⟩

/-- `.replace('"', '')` applied to the configured submit-directory value:
removes every double-quote character. -/
def stripQuotes (s : String) : String :=
  ⟨s.data.filter (fun c => c ≠ '"')⟩

/-- Inputs one iteration of `run`'s `while` loop observes: the raw config
value returned by `util.getCondorConfigVal`, the wall-clock time, and the
record files found by `_locate` together with the oracle for each. -/
structure PassInput where
  configVal : String
  now : Int
  records : List (String × FSOracle)

/-- Observable actions of the `run` loop, in program order. -/
inductive PassAction
  | log (e : LogEvent)
  | sleep (secs : Nat)
  | scanDir (dir : String)
  | record (cfile : String) (eff : Effects)
deriving DecidableEq, Repr

/-- The `for c in self._locate(...)` loop with the per-record
`try ... except` inside the body: an exception from
`_safeRemoveClusterFiles` becomes an error log and the loop goes on. -/
def recordTrace (dryrun : Bool) (now : Int) :
    List (String × FSOracle) → List PassAction
  | [] => []
  | r :: rs =>
    (match safeRemoveClusterFiles dryrun now r.1 r.2 with
     | .ok eff => PassAction.record r.1 eff
     | .error e => PassAction.record r.1 ⟨false, false, [.caughtUnhandled e]⟩)
    :: recordTrace dryrun now rs

/-- One iteration of the `while not self._stopevent.isSet()` loop: log,
wait on the stop event for the sleep interval, read the config value,
then either report the missing submit dir or scan it and process each
record. -/
def passTrace (dryrun : Bool) (sleeptime : Nat) (p : PassInput) :
    List PassAction :=
  PassAction.log (.sleeping sleeptime) :: PassAction.sleep sleeptime ::
    (if stripQuotes p.configVal = "" then
      [PassAction.log .noSubmitDir]
    else
      PassAction.scanDir (stripQuotes p.configVal) ::
        recordTrace dryrun p.now p.records)

/-- The `run` loop over the passes executed before the stop event is
observed set. -/
def runTrace (dryrun : Bool) (sleeptime : Nat) :
    List PassInput → List PassAction
  | [] => []
  | p :: ps => passTrace dryrun sleeptime p ++ runTrace dryrun sleeptime ps

/-- Actions that scan the submit directory or process a record. -/
def isWork : PassAction → Bool
  | .scanDir _ => true
  | .record _ _ => true
  | _ => false

/-- Two-argument `posixpath.join`: an absolute second component replaces
the path; otherwise it is appended, inserting `/` unless the first
component is empty or already ends in `/`. -/
def pathJoin (a b : String) : String :=
  if b.data.head? = some '/' then b
  else if a = "" ∨ a.data.getLast? = some '/' then a ++ b
  else a ++ "/" ++ b

/-- `LocalSubmitCleaner._locate`: for each result of
`glob.glob(os.path.join(root, pattern))` it yields
`os.path.join(root, match)` — joining the root on a second time. -/
def locate (root : String) (ms : List String) : List String :=
  ms.map (fun m => pathJoin root m)

/-- Split a character list into its newline-separated lines. -/
def splitLines : List Char → List (List Char)
  | [] => [[]]
  | c :: rest =>
    if c = '\n' then [] :: splitLines rest
    else
      match splitLines rest with
      | [] => [[c]]
      | l :: ls => (c :: l) :: ls

/-- Modelled from the spec: the count the specification ascribes to the
probe — the number of stdout lines that begin, after optional leading
whitespace, with the cluster id.  Compared against the source's
`reFindAllCount`. -/
def specLineCount (id stdout : String) : Nat :=
  (splitLines stdout.data).countP
    (fun line => id.data.isPrefixOf (line.dropWhile (fun c => isWs c)))

/-- Concrete oracle: ten-minute-old record, healthy probe reporting an
empty queue, both removals succeed. -/
def oracleA : FSOracle :=
  ⟨.ok 0, .ok ⟨some "42", none, some "/tmp/work42"⟩, 0, "", "", .ok (), .ok ()⟩

/-- Effects `oracleA` produces in a non-dry-run pass at `now = 1000`. -/
def effA : Effects :=
  ⟨true, true,
    [.checkingCluster "42" "localhost", .probeRunning "42",
     .foundZeroCleanup "/tmp/work42", .removedPath "/tmp/work42",
     .removedFile "A.cluster"]⟩

/-- Like `oracleA` but `shutil.rmtree` raises. -/
def oracleRmFail : FSOracle :=
  ⟨.ok 0, .ok ⟨some "42", none, some "/tmp/work42"⟩, 0, "", "",
    .error "Permission denied", .ok ()⟩

/-- Like `oracleA` but `pickle.load` raises on a corrupt record. -/
def oracleCorrupt : FSOracle :=
  ⟨.ok 0, .error "unpickling error", 0, "", "", .ok (), .ok ()⟩

end CondorAgent

namespace CondorAgent

/-- C3: a record whose file is younger than 300 seconds is fully handled
by the age guard: the outcome is the same for every deserialization,
probe and removal oracle (so none of them is consulted), nothing is
removed, and the only log event is the info-level not-old-enough
message. -/
theorem age_guard_blocks_processing (dryrun : Bool) (now : Int)
    (cfile : String) (mtime : Int) (o : FSOracle)
    (hstat : o.statMtime = .ok mtime) (hyoung : now - mtime < 300) :
    safeRemoveClusterFiles dryrun now cfile o =
      .ok ⟨false, false, [.notOldEnough cfile mtime]⟩ ∧
    (LogEvent.notOldEnough cfile mtime).level = .info := by
  refine ⟨?_, rfl⟩
  unfold safeRemoveClusterFiles
  rw [hstat]
  simp [hyoung]

/-- Witness for `age_guard_blocks_processing` at a concrete young record. -/
theorem age_guard_blocks_processing_witness :
    safeRemoveClusterFiles false 100 "A.cluster" oracleA =
      .ok ⟨false, false, [.notOldEnough "A.cluster" 0]⟩ ∧
    (LogEvent.notOldEnough "A.cluster" 0).level = .info :=
  age_guard_blocks_processing false 100 "A.cluster" 0 oracleA rfl (by decide)

/-- C1: in any processing step the record file is removed only if the
recursive removal of `work_dir` succeeded in that same step (and the run
is not a dry run); whenever `shutil.rmtree` raises, `os.remove` is never
reached and the record file stays on disk. -/
theorem record_file_removed_only_after_workdir (dryrun : Bool) (now : Int)
    (cfile : String) (o : FSOracle) (eff : Effects)
    (h : safeRemoveClusterFiles dryrun now cfile o = .ok eff) :
    (eff.recordFileRemoved = true →
      eff.workDirRemoved = true ∧ o.rmtreeResult = .ok () ∧ dryrun = false) ∧
    (∀ e, o.rmtreeResult = .error e → eff.recordFileRemoved = false) := by
  obtain ⟨stat, load, rc, out, err, rmr, rmf⟩ := o
  cases stat with
  | error e => simp [safeRemoveClusterFiles] at h
  | ok mtime =>
    by_cases hy : now - mtime < 300
    · simp [safeRemoveClusterFiles, hy] at h
      subst h
      simp
    · cases load with
      | error e => simp [safeRemoveClusterFiles, hy] at h
      | ok cdata =>
        rcases hq : condorJobsInQueue (cdata.clusterid.getD "None") rc out err
            with _ | n
        · simp [safeRemoveClusterFiles, hy, hq] at h
          subst h
          simp
        · cases n with
          | zero =>
            cases dryrun with
            | false =>
              cases rmr with
              | error e =>
                simp [safeRemoveClusterFiles, hy, hq] at h
                subst h
                simp
              | ok u =>
                cases rmf with
                | error e =>
                  simp [safeRemoveClusterFiles, hy, hq] at h
                  subst h
                  simp
                | ok u2 =>
                  simp [safeRemoveClusterFiles, hy, hq] at h
                  subst h
                  simp
            | true =>
              simp [safeRemoveClusterFiles, hy, hq] at h
              subst h
              simp
          | succ m =>
            simp [safeRemoveClusterFiles, hy, hq] at h
            subst h
            simp

/-- Witness for `record_file_removed_only_after_workdir`: the successful
removal path on `oracleA`. -/
theorem record_file_removed_only_after_workdir_witness :
    effA.workDirRemoved = true ∧ oracleA.rmtreeResult = .ok () := by
  have h := record_file_removed_only_after_workdir false 1000 "A.cluster"
    oracleA effA rfl
  exact ⟨(h.1 rfl).1, (h.1 rfl).2.1⟩

/-- C2: past the age guard, either removal happens only when the probe
reports exactly zero jobs and the run is not a dry run; a positive count
removes nothing; an unknown count (`None`) removes nothing and is logged
through the error-level condor_q-failed message. -/
theorem removal_requires_zero_count (dryrun : Bool) (now : Int)
    (cfile : String) (o : FSOracle) (mtime : Int) (cdata : ClusterData)
    (eff : Effects)
    (hstat : o.statMtime = .ok mtime) (hage : ¬ now - mtime < 300)
    (hload : o.load = .ok cdata)
    (h : safeRemoveClusterFiles dryrun now cfile o = .ok eff) :
    ((eff.workDirRemoved = true ∨ eff.recordFileRemoved = true) →
      condorJobsInQueue (cdata.clusterid.getD "None") o.probeRC o.probeOut
          o.probeErr = some 0 ∧ dryrun = false) ∧
    (∀ n, condorJobsInQueue (cdata.clusterid.getD "None") o.probeRC
        o.probeOut o.probeErr = some (n + 1) →
      eff.workDirRemoved = false ∧ eff.recordFileRemoved = false) ∧
    (condorJobsInQueue (cdata.clusterid.getD "None") o.probeRC o.probeOut
        o.probeErr = none →
      eff.workDirRemoved = false ∧ eff.recordFileRemoved = false ∧
      LogEvent.condorQFailed ∈ eff.logs ∧
      LogEvent.level .condorQFailed = .error) := by
  obtain ⟨stat, load, rc, out, err, rmr, rmf⟩ := o
  simp only at hstat hload ⊢
  subst hstat
  subst hload
  rcases hq : condorJobsInQueue (cdata.clusterid.getD "None") rc out err
      with _ | n
  · simp [safeRemoveClusterFiles, hage, hq] at h
    subst h
    simp [LogEvent.level]
  · cases n with
    | zero =>
      cases dryrun with
      | false =>
        cases rmr with
        | error e =>
          simp [safeRemoveClusterFiles, hage, hq] at h
          subst h
          simp
        | ok u =>
          cases rmf with
          | error e =>
            simp [safeRemoveClusterFiles, hage, hq] at h
            subst h
            simp
          | ok u2 =>
            simp [safeRemoveClusterFiles, hage, hq] at h
            subst h
            simp
      | true =>
        simp [safeRemoveClusterFiles, hage, hq] at h
        subst h
        simp
    | succ m =>
      simp [safeRemoveClusterFiles, hage, hq] at h
      subst h
      simp

/-- Witness for `removal_requires_zero_count`: on `oracleA` the probe
reports zero and both removals happen only on that branch. -/
theorem removal_requires_zero_count_witness :
    condorJobsInQueue "42" 0 "" "" = some 0 := by
  have h := removal_requires_zero_count false 1000 "A.cluster" oracleA 0
    ⟨some "42", none, some "/tmp/work42"⟩ effA rfl (by decide) rfl rfl
  exact (h.1 (Or.inl rfl)).1

/-- C6: with the dry-run flag set no record processing ever performs a
filesystem removal, and a record the probe reports empty gets both
DRY-RUN log messages, naming the work dir and the record file. -/
theorem dryrun_never_mutates (now : Int) (cfile : String) (o : FSOracle) :
    (∀ eff, safeRemoveClusterFiles true now cfile o = .ok eff →
      eff.workDirRemoved = false ∧ eff.recordFileRemoved = false) ∧
    (∀ mtime cdata, o.statMtime = .ok mtime → ¬ now - mtime < 300 →
      o.load = .ok cdata →
      condorJobsInQueue (cdata.clusterid.getD "None") o.probeRC o.probeOut
          o.probeErr = some 0 →
      ∃ eff, safeRemoveClusterFiles true now cfile o = .ok eff ∧
        LogEvent.dryRunPath (cdata.tmpdir.getD "None") ∈ eff.logs ∧
        LogEvent.dryRunFile cfile ∈ eff.logs) := by
  obtain ⟨stat, load, rc, out, err, rmr, rmf⟩ := o
  simp only at *
  constructor
  · intro eff h
    cases stat with
    | error e => simp [safeRemoveClusterFiles] at h
    | ok mtime =>
      by_cases hy : now - mtime < 300
      · simp [safeRemoveClusterFiles, hy] at h
        subst h
        simp
      · cases load with
        | error e => simp [safeRemoveClusterFiles, hy] at h
        | ok cdata =>
          rcases hq : condorJobsInQueue (cdata.clusterid.getD "None") rc out
              err with _ | n
          · simp [safeRemoveClusterFiles, hy, hq] at h
            subst h
            simp
          · cases n with
            | zero =>
              simp [safeRemoveClusterFiles, hy, hq] at h
              subst h
              simp
            | succ m =>
              simp [safeRemoveClusterFiles, hy, hq] at h
              subst h
              simp
  · intro mtime cdata hstat hage hload hq
    subst hstat
    subst hload
    refine ⟨⟨false, false,
      LogEvent.checkingCluster (cdata.clusterid.getD "Unknown")
          (cdata.queue.getD "localhost") ::
        (probeLogs (cdata.clusterid.getD "None") err ++
          [LogEvent.foundZeroCleanup (cdata.tmpdir.getD "None"),
           LogEvent.dryRunPath (cdata.tmpdir.getD "None"),
           LogEvent.dryRunFile cfile])⟩, ?_, ?_, ?_⟩
    · simp [safeRemoveClusterFiles, hage, hq]
    · simp
    · simp

/-- Witness for `dryrun_never_mutates` on `oracleA`. -/
theorem dryrun_never_mutates_witness :
    ∃ eff, safeRemoveClusterFiles true 1000 "A.cluster" oracleA = .ok eff ∧
      LogEvent.dryRunPath "/tmp/work42" ∈ eff.logs ∧
      LogEvent.dryRunFile "A.cluster" ∈ eff.logs :=
  (dryrun_never_mutates 1000 "A.cluster" oracleA).2 0
    ⟨some "42", none, some "/tmp/work42"⟩ rfl (by decide) rfl rfl

/-- C4: the probe reports the unknown signal (`None`) exactly when the
external command produced a non-empty error stream or a non-zero exit
code; stdout is irrelevant in those cases. -/
theorem probe_unknown_iff_stderr_or_exit (cid : String) (rc : Int)
    (stdout stderr : String) :
    condorJobsInQueue cid rc stdout stderr = none ↔
      stderr.length > 0 ∨ rc ≠ 0 := by
  unfold condorJobsInQueue
  by_cases h1 : stderr.length > 0
  · simp [h1]
  · by_cases h2 : rc = 0
    · simp [h1, h2]
    · simp [h1, h2]

/-- C7: the per-record `try/except` contains every exception: the loop
body over records is pointwise (an exception in one record does not
change how the others are processed), every record yields an outcome, a
raising record contributes exactly the error-level caught-unhandled log,
and the scheduler still appends the next pass's trace. -/
theorem per_record_errors_contained (dryrun : Bool) (now : Int) :
    (∀ recs : List (String × FSOracle),
      recordTrace dryrun now recs =
        recs.map (fun r => PassAction.record r.1 (processRecord dryrun now r))
      ∧ (recordTrace dryrun now recs).length = recs.length) ∧
    (∀ (r : String × FSOracle) (rs : List (String × FSOracle)) (e : String),
      safeRemoveClusterFiles dryrun now r.1 r.2 = .error e →
      recordTrace dryrun now (r :: rs) =
        PassAction.record r.1 ⟨false, false, [.caughtUnhandled e]⟩ ::
          recordTrace dryrun now rs ∧
      (LogEvent.caughtUnhandled e).level = .error) ∧
    (∀ (st : Nat) (p : PassInput) (ps : List PassInput),
      runTrace dryrun st (p :: ps) =
        passTrace dryrun st p ++ runTrace dryrun st ps) := by
  refine ⟨?_, ?_, fun st p ps => rfl⟩
  · intro recs
    induction recs with
    | nil => exact ⟨rfl, rfl⟩
    | cons r rs ih =>
      cases hsr : safeRemoveClusterFiles dryrun now r.1 r.2 with
      | error e =>
        refine ⟨?_, ?_⟩ <;>
          simp [recordTrace, processRecord, hsr, ih.1, ih.2]
      | ok eff =>
        refine ⟨?_, ?_⟩ <;>
          simp [recordTrace, processRecord, hsr, ih.1, ih.2]
  · intro r rs e hsr
    refine ⟨?_, rfl⟩
    simp [recordTrace, hsr]

/-- Witness for `per_record_errors_contained`: a corrupt record is logged
and the following record is still processed normally. -/
theorem per_record_errors_contained_witness :
    recordTrace false 1000 [("B.cluster", oracleCorrupt),
        ("A.cluster", oracleA)] =
      [PassAction.record "B.cluster"
        ⟨false, false, [.caughtUnhandled "unpickling error"]⟩,
       PassAction.record "A.cluster" effA] := by
  have h := (per_record_errors_contained false 1000).2.1
    ("B.cluster", oracleCorrupt) [("A.cluster", oracleA)]
    "unpickling error" rfl
  exact h.1.trans (by rfl)

/-- C8: a pass whose configured submit-directory value strips to the
empty string logs the error-level missing-setting message, performs no
scan and processes no record, and the loop proceeds with the remaining
passes. -/
theorem missing_submit_dir_skips_pass (dryrun : Bool) (st : Nat)
    (p : PassInput) (ps : List PassInput)
    (hcfg : stripQuotes p.configVal = "") :
    passTrace dryrun st p =
      [.log (.sleeping st), .sleep st, .log .noSubmitDir] ∧
    LogEvent.noSubmitDir.level = .error ∧
    (∀ a ∈ passTrace dryrun st p, isWork a = false) ∧
    runTrace dryrun st (p :: ps) =
      passTrace dryrun st p ++ runTrace dryrun st ps := by
  refine ⟨?_, rfl, ?_, rfl⟩
  · unfold passTrace
    rw [hcfg]
    simp
  · intro a ha
    unfold passTrace at ha
    rw [hcfg] at ha
    simp at ha
    rcases ha with h | h | h <;> subst h <;> rfl

/-- Witness for `missing_submit_dir_skips_pass` at the default `'""'`
config value. -/
theorem missing_submit_dir_skips_pass_witness :
    passTrace false 600 ⟨"\"\"", 1000, [("A.cluster", oracleA)]⟩ =
      [.log (.sleeping 600), .sleep 600, .log .noSubmitDir] :=
  (missing_submit_dir_skips_pass false 600
    ⟨"\"\"", 1000, [("A.cluster", oracleA)]⟩ [] (by decide)).1

/-- Every work action (scan or record) inside a single pass trace has the
interruptible sleep strictly before it. -/
theorem passTrace_work_sleep (dryrun : Bool) (st : Nat) (p : PassInput) :
    ∀ (i : Nat) (a : PassAction), (passTrace dryrun st p)[i]? = some a →
      isWork a = true → PassAction.sleep st ∈ (passTrace dryrun st p).take i := by
  intro i a h hw
  match i with
  | 0 =>
    simp [passTrace] at h
    subst h
    simp [isWork] at hw
  | 1 =>
    simp [passTrace] at h
    subst h
    simp [isWork] at hw
  | i + 2 =>
    unfold passTrace
    simp [List.take_succ_cons]

/-- C9: in the whole run trace, every directory scan and every record
processing is preceded by an interruptible sleep for the configured
interval — in particular the very first pass sleeps before scanning. -/
theorem sleep_precedes_work (dryrun : Bool) (st : Nat) :
    ∀ (ps : List PassInput) (i : Nat) (a : PassAction),
      (runTrace dryrun st ps)[i]? = some a → isWork a = true →
      PassAction.sleep st ∈ (runTrace dryrun st ps).take i := by
  intro ps
  induction ps with
  | nil => intro i a h hw; simp [runTrace] at h
  | cons p ps ih =>
    intro i a h hw
    rw [runTrace]
    rw [runTrace] at h
    by_cases hi : i < (passTrace dryrun st p).length
    · rw [List.getElem?_append_left hi] at h
      rw [List.take_append_eq_append_take]
      exact List.mem_append_left _ (passTrace_work_sleep dryrun st p i a h hw)
    · push_neg at hi
      rw [List.getElem?_append_right hi] at h
      rw [List.take_append_eq_append_take]
      exact List.mem_append_right _
        (ih (i - (passTrace dryrun st p).length) a h hw)

/-- Witness for `sleep_precedes_work`: in a one-pass run the scan at
index 2 is preceded by the sleep. -/
theorem sleep_precedes_work_witness :
    PassAction.sleep 600 ∈
      (runTrace false 600 [⟨"\"/sub\"", 1000, [("A.cluster", oracleA)]⟩]).take 2 :=
  sleep_precedes_work false 600 [⟨"\"/sub\"", 1000, [("A.cluster", oracleA)]⟩]
    2 (.scanDir "/sub") (by rfl) rfl

/-- C10 counterexample: for the empty (hence non-absolute) root the
locator yields exactly the glob match, so yielded-equals-match does not
hold only for absolute roots. -/
theorem locate_empty_root_yields_match :
    locate "" ["a.cluster"] = ["a.cluster"] ∧
    ¬ "".data.head? = some '/' := by
  exact ⟨by decide, by decide⟩

/-- C10 amended: for a glob match `m` obtained by joining a filename onto
the root, the locator yields `pathJoin root m`; for an absolute root the
yield equals the match, and for a non-empty relative root the yield
prepends the root (and a separator) a second time and so differs from
the match. -/
theorem locate_double_join (root fname : String)
    (hf : ¬ fname.data.head? = some '/') :
    (root.data.head? = some '/' →
      pathJoin root (pathJoin root fname) = pathJoin root fname) ∧
    (¬ root = "" → ¬ root.data.head? = some '/' →
      pathJoin root (pathJoin root fname) =
        root ++ (if root.data.getLast? = some '/' then "" else "/") ++
          pathJoin root fname ∧
      ¬ pathJoin root (pathJoin root fname) = pathJoin root fname) := by
  have hrlen : ∀ s : String, ¬ s = "" → 0 < s.length := by
    intro s hs
    cases hsd : s.data with
    | nil => exact absurd (String.ext (hsd.trans rfl)) hs
    | cons c cs =>
      have h1 : s.length = s.data.length := rfl
      rw [h1, hsd]
      simp
  have hdata : ∀ (a b : String), ¬ a = "" →
      (a ++ b).data.head? = a.data.head? := by
    intro a b ha
    rw [String.data_append]
    refine List.head?_append_of_ne_nil _ ?_
    intro hnil
    exact ha (String.ext hnil)
  have hne_app : ∀ (a b : String), ¬ b = "" → ¬ (a ++ b) = "" := by
    intro a b hb h
    have hl := congrArg String.length h
    rw [String.length_append] at hl
    have hb0 : 0 < b.length := hrlen b hb
    have h0 : ("" : String).length = 0 := rfl
    omega
  have hm_head : ¬ root = "" →
      (pathJoin root fname).data.head? = root.data.head? := by
    intro hroot
    unfold pathJoin
    rw [if_neg hf]
    by_cases hc : root = "" ∨ root.data.getLast? = some '/'
    · rw [if_pos hc]
      exact hdata root fname hroot
    · rw [if_neg hc]
      rw [hdata (root ++ "/") fname (hne_app root "/" (by decide))]
      exact hdata root "/" hroot
  constructor
  · intro hr
    have hroot : ¬ root = "" := by
      intro h
      rw [h] at hr
      exact absurd hr (by decide)
    set m := pathJoin root fname with hmdef
    have hm : m.data.head? = some '/' := (hm_head hroot).trans hr
    unfold pathJoin
    rw [if_pos hm]
  · intro hne hnr
    set m := pathJoin root fname with hmdef
    have hm : ¬ m.data.head? = some '/' := fun h =>
      hnr ((hm_head hne).symm.trans h)
    have heqn : pathJoin root m =
        root ++ (if root.data.getLast? = some '/' then "" else "/") ++ m := by
      unfold pathJoin
      rw [if_neg hm]
      by_cases hl : root.data.getLast? = some '/'
      · rw [if_pos (Or.inr hl), if_pos hl, String.append_empty]
      · have hc : ¬ (root = "" ∨ root.data.getLast? = some '/') := fun h =>
          h.elim hne hl
        rw [if_neg hc, if_neg hl]
    refine ⟨heqn, fun heq => ?_⟩
    rw [heqn] at heq
    have hlen := congrArg String.length heq
    rw [String.length_append, String.length_append] at hlen
    have hr0 : 0 < root.length := hrlen root hne
    omega

/-- Witness for `locate_double_join`: the relative root `sub` is joined
on twice, so the yield does not name the matched file. -/
theorem locate_double_join_witness :
    pathJoin "sub" (pathJoin "sub" "a.cluster") =
      "sub" ++ "/" ++ pathJoin "sub" "a.cluster" ∧
    ¬ pathJoin "sub" (pathJoin "sub" "a.cluster") =
      pathJoin "sub" "a.cluster" := by
  have h := (locate_double_join "sub" "a.cluster" (by decide)).2
    (by decide) (by decide)
  exact ⟨h.1.trans (by decide), h.2⟩

/-- Dropping the leading whitespace is the same as dropping the length of
the maximal whitespace run. -/
theorem dropWhile_wsRun (s : List Char) :
    s.dropWhile (fun c => isWs c) = s.drop (wsRun s) := by
  induction s with
  | nil => rfl
  | cons c cs ih =>
    by_cases h : isWs c
    · simp [List.dropWhile, wsRun, h, ih]
    · simp [List.dropWhile, wsRun, h]

/-- Every position strictly inside the whitespace run looks at a
whitespace character. -/
theorem wsRun_head (s : List Char) :
    ∀ k, k < wsRun s → ∃ c cs, s.drop k = c :: cs ∧ isWs c = true := by
  induction s with
  | nil => intro k hk; simp [wsRun] at hk
  | cons c cs ih =>
    intro k hk
    by_cases h : isWs c
    · cases k with
      | zero => exact ⟨c, cs, by simp, h⟩
      | succ k2 =>
        simp only [wsRun, if_pos h] at hk
        obtain ⟨d, ds, hd, hw⟩ := ih k2 (by omega)
        exact ⟨d, ds, by simpa using hd, hw⟩
    · simp only [wsRun, if_neg h] at hk
      omega

/-- When the pattern is non-empty and contains no whitespace, the greedy
backtracking of the leading whitespace quantifier succeeds only with the
full run of `j` skipped characters. -/
theorem backScan_eq (id : List Char) (hid : ¬ id = [])
    (hws : ∀ c ∈ id, isWs c = false) (s : List Char) :
    ∀ j, j ≤ wsRun s →
      backScan id s j = if id.isPrefixOf (s.drop j) then some j else none := by
  intro j
  induction j with
  | zero =>
    intro hj
    simp [backScan]
  | succ j ih =>
    intro hj
    by_cases hp : id.isPrefixOf (s.drop (j + 1))
    · simp [backScan, hp]
    · simp only [backScan, hp, if_neg, Bool.false_eq_true, if_false]
      rw [ih (by omega)]
      obtain ⟨c, cs, hdrop, hc⟩ := wsRun_head s j (by omega)
      rw [hdrop]
      cases id with
      | nil => exact absurd rfl hid
      | cons d ds =>
        have hd : isWs d = false := hws d (by simp)
        have hne : ¬ d = c := by
          intro h
          rw [h, hc] at hd
          exact Bool.noConfusion hd
        have hpre : (d :: ds).isPrefixOf (c :: cs) = false := by
          simp [List.isPrefixOf, hne]
        simp [hpre]

/-- Closed form of the head-anchored match for non-empty, whitespace-free
patterns: it succeeds exactly when the pattern follows the leading
whitespace, and then consumes that whitespace, the pattern, and the
trailing whitespace. -/
theorem matchLen_eq (id : List Char) (hid : ¬ id = [])
    (hws : ∀ c ∈ id, isWs c = false) (s : List Char) :
    matchLen id s =
      if id.isPrefixOf (s.drop (wsRun s)) then
        some (wsRun s + id.length +
          wsRun (s.drop (wsRun s + id.length)))
      else none := by
  unfold matchLen
  rw [backScan_eq id hid hws s (wsRun s) (le_refl _)]
  by_cases hp : id.isPrefixOf (s.drop (wsRun s))
  · simp [hp]
  · simp [hp]

/-- Away from line starts, a newline-free remainder can never match the
line-anchored pattern again. -/
theorem scanCountF_no_nl (id : List Char) :
    ∀ (f : Nat) (s : List Char), (∀ c ∈ s, ¬ c = '\n') →
      scanCountF id f s false = 0 := by
  intro f
  induction f with
  | zero => intro s h; rfl
  | succ f ih =>
    intro s h
    cases s with
    | nil => simp [scanCountF]
    | cons c rest =>
      have hc : (c == '\n') = false := by
        have := h c (by simp)
        simp [this]
      have hstep : scanCountF id (f + 1) (c :: rest) false =
          scanCountF id f rest (c == '\n') := by
        simp [scanCountF]
      rw [hstep, hc]
      exact ih rest (fun x hx => h x (by simp [hx]))

/-- A `getLast?` value is a member of the list. -/
theorem getLast?_mem_self (l : List Char) (a : Char)
    (h : l.getLast? = some a) : a ∈ l := by
  induction l with
  | nil => exact Option.noConfusion h
  | cons c cs ih =>
    cases cs with
    | nil =>
      simp [List.getLast?] at h
      simp [h]
    | cons c2 cs2 =>
      rw [List.getLast?_cons_cons] at h
      exact List.mem_cons_of_mem c (ih h)

/-- On a newline-free input started at a line start, the findall scan
counts exactly one match when the input begins, after its leading
whitespace, with the (non-empty, whitespace-free) pattern, else zero. -/
theorem scanCountF_single_line (id : List Char) (hid : ¬ id = [])
    (hws : ∀ c ∈ id, isWs c = false) :
    ∀ (f : Nat) (s : List Char), s.length < f → (∀ c ∈ s, ¬ c = '\n') →
      scanCountF id f s true =
        if id.isPrefixOf (s.drop (wsRun s)) then 1 else 0 := by
  intro f
  cases f with
  | zero => intro s hf; omega
  | succ f =>
    intro s hf hnl
    have hlen : 0 < id.length := List.length_pos.mpr hid
    cases s with
    | nil =>
      have hp : id.isPrefixOf (([] : List Char).drop (wsRun [])) = false := by
        cases id with
        | nil => exact absurd rfl hid
        | cons d ds => rfl
      simp [scanCountF, matchLen_eq id hid hws, hp]
    | cons c rest =>
      have hc : (c == '\n') = false := by
        have := hnl c (by simp)
        simp [this]
      simp only [scanCountF]
      rw [matchLen_eq id hid hws (c :: rest)]
      by_cases hp : id.isPrefixOf ((c :: rest).drop (wsRun (c :: rest)))
      · simp only [hp, if_true]
        have hn0 : ¬ (wsRun (c :: rest) + id.length +
            wsRun ((c :: rest).drop (wsRun (c :: rest) + id.length))) = 0 := by
          omega
        simp only [hn0, if_false]
        have hb : ((((c :: rest).take (wsRun (c :: rest) + id.length +
            wsRun ((c :: rest).drop (wsRun (c :: rest) + id.length)))).getLast?
              == some '\n') : Bool) = false := by
          cases hgl : ((c :: rest).take (wsRun (c :: rest) + id.length +
              wsRun ((c :: rest).drop (wsRun (c :: rest) + id.length)))).getLast?
              with
          | none => rfl
          | some x =>
            have hx : x ∈ c :: rest :=
              List.take_subset _ _ (getLast?_mem_self _ x hgl)
            have : ¬ x = '\n' := hnl x hx
            simp [this]
        rw [hb]
        have hz : scanCountF id f (rest.drop (wsRun (c :: rest) + id.length +
            wsRun ((c :: rest).drop (wsRun (c :: rest) + id.length)) - 1))
              false = 0 := by
          refine scanCountF_no_nl id f _ ?_
          intro x hx
          exact hnl x (List.mem_cons_of_mem c (List.drop_subset _ _ hx))
        rw [hz]
      · simp only [hp, Bool.false_eq_true, if_false]
        rw [hc]
        exact scanCountF_no_nl id f rest
          (fun x hx => hnl x (List.mem_cons_of_mem c hx))

/-- C5 amended: with empty stderr and exit code zero on a single-line
stdout, the probe returns 1 when the line begins, after optional leading
whitespace, with the cluster id, else 0 (multi-line stdout can count
fewer than the qualifying lines, see the counterexample). -/
theorem probe_count_single_line (id stdout : String)
    (hid : ¬ id.data = []) (hws : ∀ c ∈ id.data, isWs c = false)
    (hnl : ∀ c ∈ stdout.data, ¬ c = '\n') :
    condorJobsInQueue id 0 stdout "" =
      some (if id.data.isPrefixOf
              (stdout.data.dropWhile (fun c => isWs c)) then 1 else 0) := by
  unfold condorJobsInQueue reFindAllCount scanCount
  rw [if_neg (by decide : ¬ ("" : String).length > 0), if_pos rfl]
  refine congrArg some ?_
  rw [dropWhile_wsRun]
  exact scanCountF_single_line id.data hid hws (stdout.data.length + 1)
    stdout.data (by omega) hnl

/-- Witness for `probe_count_single_line` on the spec's own example line. -/
theorem probe_count_single_line_witness :
    condorJobsInQueue "42" 0 "   42" "" =
      some (if ("42".data).isPrefixOf
              ("   42".data.dropWhile (fun c => isWs c)) then 1 else 0) :=
  probe_count_single_line "42" "   42" (by decide) (by decide) (by decide)

/-- C5 counterexample: for cluster id 42 and the two-line stdout
`42\n 42` — both lines begin with the id after optional whitespace — the
probe returns 1 while the per-line count of the claim is 2: the first
match's trailing whitespace consumes the second line's leading blank, so
the scan resumes past that line's start. -/
theorem probe_count_misses_indented_line :
    condorJobsInQueue "42" 0 "42\n 42" "" = some 1 ∧
    specLineCount "42" "42\n 42" = 2 ∧
    ¬ condorJobsInQueue "42" 0 "42\n 42" "" =
        some (specLineCount "42" "42\n 42") := by
  refine ⟨by decide, by decide, by decide⟩

end CondorAgent
